import Mathlib

/-!
Verification of the LagLens latency monitor core.

This file gives a shallow embedding of the two algorithmic cores of the
repository — the windowed latency-statistics engine
(`src/laglens/latency_stats.py`, class `LatencyHistory`) and the map
rasterizer (`src/laglens/world_map.py`, class `WorldMap`) — plus the
add-host validation path (`src/laglens/app.py`, `add_new_server`), and
proves or refutes the specified properties about them.

Modelling conventions:
- Python floats are modelled as exact rationals (ℚ); timestamps as ℤ
  (the window filter only compares them).
- `datetime.now() - timedelta(minutes=w)` is passed in as an explicit
  `cutoff` parameter.
- Python `None` becomes `Option.none`; a dict becomes an association
  list with Python dict semantics (insert overwrites in place, lookup
  finds the unique entry).
- The pyproj coordinate transformer and the shapely point-in-polygon
  classifier are transcendental float geometry; they are abstracted as
  function parameters of the `WorldMap` structure. Every claim below is
  stated at the level of already-projected planar coordinates, matching
  the spec's own phrasing.
-/

namespace LagLens

/-! ## Data model: measurements and statistics (latency_stats.py) -/

/-- One entry of `LatencyHistory.history[server_ip]`:
`{"latency": latency, "timestamp": timestamp}`, where `latency is None`
records a probe failure. -/
structure Measurement where
  latency : Option ℚ
  timestamp : ℤ
deriving DecidableEq, Repr

/-- The dict returned by `LatencyHistory.get_statistics`. -/
structure Stats where
  min : Option ℚ
  max : Option ℚ
  avg : Option ℚ
  jitter : Option ℚ
  packet_loss : Option ℚ
deriving DecidableEq, Repr

/-- `LatencyHistory._get_recent_data`: measurements with
`timestamp >= cutoff_time`. -/
def getRecentData (series : List Measurement) (cutoff : ℤ) : List Measurement :=
  series.filter fun m => cutoff ≤ m.timestamp

/-- The list comprehension
`[m["latency"] for m in recent if m["latency"] is not None]`. -/
def presentLatencies (ms : List Measurement) : List ℚ :=
  ms.filterMap fun m => m.latency

/-- Python `min` on a list; in the source it is only applied to
non-empty lists (Python raises on an empty one). -/
def listMin : List ℚ → ℚ
  | [] => 0
  | x :: xs => xs.foldl Min.min x

/-- Python `max` on a list; only applied to non-empty lists. -/
def listMax : List ℚ → ℚ
  | [] => 0
  | x :: xs => xs.foldl Max.max x

/-- `LatencyHistory._calculate_packet_loss`. -/
def calculatePacketLoss (recent : List Measurement) : Option ℚ :=
  if recent.isEmpty then none
  else
    let failed_count := (recent.filter fun m => m.latency.isNone).length
    let total_count := recent.length
    some (if 0 < total_count then ((failed_count : ℚ) / (total_count : ℚ)) * 100 else 0)

/-- `LatencyHistory._calculate_jitter`: average absolute difference
between consecutive entries of the (present-only) latency list. -/
def calculateJitter (latencies : List ℚ) : ℚ :=
  if latencies.length < 2 then 0
  else
    let diffs := List.zipWith (fun prev cur => |cur - prev|) latencies latencies.tail
    diffs.sum / (diffs.length : ℚ)

/-- `LatencyHistory.get_statistics`. -/
def getStatistics (series : List Measurement) (cutoff : ℤ) : Stats :=
  let recent := getRecentData series cutoff
  let latencies := presentLatencies recent
  if latencies.isEmpty then
    { min := none, max := none, avg := none, jitter := none, packet_loss := none }
  else
    { min := some (listMin latencies)
      max := some (listMax latencies)
      avg := some (latencies.sum / (latencies.length : ℚ))
      jitter := some (calculateJitter latencies)
      packet_loss := calculatePacketLoss recent }

/-- Worker for `sliceEvery`: keep the head when the countdown is 0 and
restart it at `step - 1`, otherwise skip and count down. -/
def sliceEveryAux (step : ℕ) : List ℚ → ℕ → List ℚ
  | [], _ => []
  | x :: xs, 0 => x :: sliceEveryAux step xs (step - 1)
  | _ :: xs, k + 1 => sliceEveryAux step xs k

/-- Python slice `l[::step]` for `step ≥ 1`: the elements at indices
`0, step, 2·step, …`. -/
def sliceEvery (l : List ℚ) (step : ℕ) : List ℚ :=
  sliceEveryAux step l 0

/-- `LatencyHistory.get_sparkline_data`: windowed, present-only, then
`max_points = 50` and `step = len // max_points` downsampling. -/
def getSparklineData (series : List Measurement) (cutoff : ℤ) : List ℚ :=
  let recent_data := getRecentData series cutoff
  let latencies := presentLatencies recent_data
  if latencies.isEmpty then [0]
  else
    let max_points := 50
    if max_points < latencies.length then
      sliceEvery latencies (latencies.length / max_points)
    else
      latencies

/-! ## Python dicts as association lists -/

/-- Python dict assignment `d[k] = v`: overwrite in place if the key is
present, otherwise append. -/
def dictInsert {κ β : Type} [DecidableEq κ] (d : List (κ × β)) (k : κ) (v : β) :
    List (κ × β) :=
  if d.any (fun e => decide (e.1 = k)) then
    d.map fun e => if e.1 = k then (k, v) else e
  else
    d ++ [(k, v)]

/-- Python dict lookup / `d.get(k)`. -/
def dictLookup {κ β : Type} [DecidableEq κ] (d : List (κ × β)) (k : κ) : Option β :=
  (d.find? fun e => decide (e.1 = k)).map fun e => e.2

/-- Python `k in d` on a dict. -/
def dictHasKey {κ β : Type} [DecidableEq κ] (d : List (κ × β)) (k : κ) : Bool :=
  d.any fun e => decide (e.1 = k)

/-! ## World map rasterizer (world_map.py) -/

/-- Python `int(q)` on a numeric value: truncation toward zero. -/
def truncToZero (q : ℚ) : ℤ :=
  if 0 ≤ q then ⌊q⌋ else ⌈q⌉

/-- A server dict as consumed by `_get_server_grid_positions`:
`server["longitude"]`, `server["latitude"]`,
`server.get("indicator", "●")`. -/
structure Server where
  longitude : ℚ
  latitude : ℚ
  indicator : Option String
deriving DecidableEq, Repr

/-- The immutable part of a `WorldMap` instance. `transform` abstracts
the pyproj forward projection (longitude, latitude) → (x, y);
`isLandCell` abstracts `_is_land_cell` (the rtree + shapely point
classification). The four bound fields are set in `__init__` from
the projected corners (−180, −75) and (180, 85). -/
structure WorldMap where
  transform : ℚ → ℚ → ℚ × ℚ
  isLandCell : ℚ → ℚ → Bool
  xmin : ℚ
  ymin : ℚ
  xmax : ℚ
  ymax : ℚ

/-- The `__init__` assignments
`self.xmin, self.ymin = transform(-180, -75)` and
`self.xmax, self.ymax = transform(180, 85)`. -/
def mkWorldMap (transform : ℚ → ℚ → ℚ × ℚ) (isLandCell : ℚ → ℚ → Bool) : WorldMap :=
  { transform := transform
    isLandCell := isLandCell
    xmin := (transform (-180) (-75)).1
    ymin := (transform (-180) (-75)).2
    xmax := (transform 180 85).1
    ymax := (transform 180 85).2 }

/-- The mutable state of a `WorldMap` instance: `self._land_grid_cache`,
a dict keyed by `(columns, lines)`. -/
structure MapState where
  landGridCache : List ((ℤ × ℤ) × List (List Bool))
deriving DecidableEq

/-- The (row, col) grid cell computed for one server inside
`_get_server_grid_positions`:
`x, y = self.transformer.transform(server["longitude"], server["latitude"])`,
`col = int((x - self.xmin) / pixel_width)`,
`row = int((self.ymax - y) / pixel_height)`. -/
def serverCell (wm : WorldMap) (server : Server) (pixel_width pixel_height : ℚ) : ℤ × ℤ :=
  let p := wm.transform server.longitude server.latitude
  (truncToZero ((wm.ymax - p.2) / pixel_height),
   truncToZero ((p.1 - wm.xmin) / pixel_width))

/-- One iteration of the loop body of `_get_server_grid_positions`:
`if 0 <= col < columns and 0 <= row < lines:`
`server_positions[(row, col)] = server.get("indicator", "●")`. -/
def placeServer (wm : WorldMap) (pixel_width pixel_height : ℚ) (columns lines : ℤ)
    (server_positions : List ((ℤ × ℤ) × String)) (server : Server) :
    List ((ℤ × ℤ) × String) :=
  let cell := serverCell wm server pixel_width pixel_height
  if 0 ≤ cell.2 ∧ cell.2 < columns ∧ 0 ≤ cell.1 ∧ cell.1 < lines then
    dictInsert server_positions cell (server.indicator.getD "●")
  else
    server_positions

/-- `WorldMap._get_server_grid_positions`: map each server through the
projection, compute `col = int((x - xmin) / pixel_width)` and
`row = int((ymax - y) / pixel_height)`, and keep only positions inside
`[0, columns) × [0, lines)` in the `server_positions` dict. -/
def getServerGridPositions (wm : WorldMap) (servers : List Server)
    (pixel_width pixel_height : ℚ) (columns lines : ℤ) :
    List ((ℤ × ℤ) × String) :=
  servers.foldl (placeServer wm pixel_width pixel_height columns lines) []

/-- `WorldMap._get_indicator_style`. -/
def getIndicatorStyle (indicator : String) (indicator_styles : List (String × String)) :
    Option String :=
  dictLookup indicator_styles indicator

/-- The generator `land_grid_gen` inside `_create_land_grid`: classify
the center point of every cell. -/
def landGridGen (wm : WorldMap) (columns lines : ℕ) (pixel_width pixel_height : ℚ) :
    List (List Bool) :=
  (List.range lines).map fun line =>
    let y := wm.ymax - ((line : ℚ) + 1/2) * pixel_height
    (List.range columns).map fun col =>
      wm.isLandCell (wm.xmin + ((col : ℚ) + 1/2) * pixel_width) y

/-- `WorldMap._create_land_grid`: consult the cache keyed by
`(columns, lines)`; on a miss compute the grid and store it. Returns
the grid together with the updated state. -/
def createLandGrid (wm : WorldMap) (st : MapState) (columns lines : ℤ)
    (pixel_width pixel_height : ℚ) : List (List Bool) × MapState :=
  match dictLookup st.landGridCache (columns, lines) with
  | some g => (g, st)
  | none =>
    let land_grid := landGridGen wm columns.toNat lines.toNat pixel_width pixel_height
    (land_grid, ⟨dictInsert st.landGridCache (columns, lines) land_grid⟩)

/-- `WorldMap._render_map_row`: one row of the output, a list of
(glyph, style) pairs in place of a rich `Text`. -/
def renderMapRow (line : ℕ) (columns : ℕ) (land_grid : List (List Bool))
    (server_positions : List ((ℤ × ℤ) × String))
    (indicator_styles : List (String × String)) : List (String × String) :=
  (List.range columns).map fun (col : ℕ) =>
    match dictLookup server_positions ((line : ℤ), (col : ℤ)) with
    | some indicator =>
      match getIndicatorStyle indicator indicator_styles with
      | some style => (indicator, style)
      | none => (indicator, "")
    | none =>
      let is_land := (land_grid.getD line []).getD col false
      if is_land then ("*", "dim white") else (" ", "")

/-- `WorldMap.draw`: the `ValueError` becomes `Except.error` carrying
the source's message; the returned `Text` becomes the list of rendered
rows; the state is threaded explicitly. -/
def draw (wm : WorldMap) (st : MapState) (columns lines : ℤ) (servers : List Server) :
    Except String (List (List (String × String)) × MapState) :=
  if columns ≤ 0 ∨ lines ≤ 0 then
    Except.error "Columns and lines must be greater than zero."
  else
    let pixel_width := (wm.xmax - wm.xmin) / (columns : ℚ)
    let pixel_height := (wm.ymax - wm.ymin) / (lines : ℚ)
    let lg := createLandGrid wm st columns lines pixel_width pixel_height
    let server_positions :=
      if servers.isEmpty then []
      else getServerGridPositions wm servers pixel_width pixel_height columns lines
    let indicator_styles := [("🟢", "green"), ("🟡", "yellow"), ("🔴", "red")]
    Except.ok
      ((List.range lines.toNat).map fun line =>
        renderMapRow line columns.toNat lg.1 server_positions indicator_styles,
       lg.2)

/-! ## Add-host validation (app.py, `LagLensApp.add_new_server`) -/

/-- A dict of `runtime_servers`. -/
structure AppServer where
  name : String
  ip : String
  latitude : ℚ
  longitude : ℚ
  city : String
deriving DecidableEq, Repr

/-- The app state touched by `add_new_server`: the `runtime_servers`
list and the `latency_history.history` dict. -/
structure AppState where
  runtime_servers : List AppServer
  history : List (String × List Measurement)
deriving DecidableEq, Repr

/-- The already-stripped values of the five form inputs. -/
structure FormData where
  name : String
  ip : String
  latitude_str : String
  longitude_str : String
  city : String
deriving DecidableEq, Repr

/-- Outcome of `add_new_server`: either an error notification (with the
notified message) or the successfully added server. -/
inductive AddServerResult
  | notified (message : String)
  | added (server : AppServer)
deriving DecidableEq, Repr

/-- `LagLensApp.add_new_server`, with `parseFloat` abstracting Python
`float(str)` (`none` = `ValueError`). Returns the outcome and the
(possibly unchanged) state. -/
def addNewServer (parseFloat : String → Option ℚ) (st : AppState) (fd : FormData) :
    AddServerResult × AppState :=
  if fd.name = "" ∨ fd.ip = "" ∨ fd.latitude_str = "" ∨ fd.longitude_str = "" then
    (.notified "Please fill in all required fields (Name, IP, Latitude, Longitude)", st)
  else
    match parseFloat fd.latitude_str, parseFloat fd.longitude_str with
    | some latitude, some longitude =>
      if ¬(-90 ≤ latitude ∧ latitude ≤ 90) then
        (.notified "Latitude must be between -90 and 90", st)
      else if ¬(-180 ≤ longitude ∧ longitude ≤ 180) then
        (.notified "Longitude must be between -180 and 180", st)
      else if st.runtime_servers.any (fun s => decide (s.ip = fd.ip)) then
        (.notified ("Server with IP " ++ fd.ip ++ " already exists"), st)
      else if st.runtime_servers.any (fun s => decide (s.name = fd.name)) then
        (.notified ("Server with name " ++ fd.name ++ " already exists"), st)
      else
        let new_server : AppServer :=
          { name := fd.name, ip := fd.ip, latitude := latitude, longitude := longitude
            city := if fd.city = "" then "Unknown Location" else fd.city }
        (.added new_server,
         { runtime_servers := st.runtime_servers ++ [new_server]
           history := dictInsert st.history fd.ip [] })
    | _, _ =>
      (.notified "Latitude and Longitude must be valid numbers", st)

/-- A tiny concrete map instance used for witnesses: identity
projection, land iff x + y ≤ 2, world extent [0, 2] × [0, 2]. -/
def sampleWorldMap : WorldMap :=
  { transform := fun a b => (a, b)
    isLandCell := fun x y => decide (x + y ≤ 2)
    xmin := 0
    ymin := 0
    xmax := 2
    ymax := 2 }

/-! ## Helper lemmas: list minima, maxima and sums -/

theorem foldl_min_le (xs : List ℚ) : ∀ x y : ℚ, y = x ∨ y ∈ xs → xs.foldl Min.min x ≤ y := by
  induction xs with
  | nil =>
    intro x y h
    rcases h with rfl | h
    · simp
    · simp at h
  | cons a as ih =>
    intro x y h
    have hbase : as.foldl Min.min (Min.min x a) ≤ Min.min x a :=
      ih (Min.min x a) (Min.min x a) (Or.inl rfl)
    simp only [List.foldl_cons]
    rcases h with rfl | h
    · exact le_trans hbase (min_le_left _ _)
    · rcases List.mem_cons.mp h with rfl | h
      · exact le_trans hbase (min_le_right _ _)
      · exact ih (Min.min x a) y (Or.inr h)

theorem le_foldl_max (xs : List ℚ) : ∀ x y : ℚ, y = x ∨ y ∈ xs → y ≤ xs.foldl Max.max x := by
  induction xs with
  | nil =>
    intro x y h
    rcases h with rfl | h
    · simp
    · simp at h
  | cons a as ih =>
    intro x y h
    have hbase : Max.max x a ≤ as.foldl Max.max (Max.max x a) :=
      ih (Max.max x a) (Max.max x a) (Or.inl rfl)
    simp only [List.foldl_cons]
    rcases h with rfl | h
    · exact le_trans (le_max_left _ _) hbase
    · rcases List.mem_cons.mp h with rfl | h
      · exact le_trans (le_max_right _ _) hbase
      · exact ih (Max.max x a) y (Or.inr h)

theorem listMin_le_mem (l : List ℚ) (y : ℚ) (hl : l ≠ []) (hy : y ∈ l) : listMin l ≤ y := by
  cases l with
  | nil => exact absurd rfl hl
  | cons x xs =>
    rcases List.mem_cons.mp hy with h | h
    · subst h
      exact foldl_min_le xs y y (Or.inl rfl)
    · exact foldl_min_le xs x y (Or.inr h)

theorem mem_le_listMax (l : List ℚ) (y : ℚ) (hl : l ≠ []) (hy : y ∈ l) : y ≤ listMax l := by
  cases l with
  | nil => exact absurd rfl hl
  | cons x xs =>
    rcases List.mem_cons.mp hy with h | h
    · subst h
      exact le_foldl_max xs y y (Or.inl rfl)
    · exact le_foldl_max xs x y (Or.inr h)

theorem mul_length_le_sum (l : List ℚ) (m : ℚ) (h : ∀ y ∈ l, m ≤ y) :
    (l.length : ℚ) * m ≤ l.sum := by
  induction l with
  | nil => simp
  | cons a as ih =>
    simp only [List.length_cons, List.sum_cons]
    have h1 : m ≤ a := h a (List.mem_cons_self a as)
    have h2 : (as.length : ℚ) * m ≤ as.sum := ih fun y hy => h y (List.mem_cons_of_mem a hy)
    have expand : ((as.length : ℚ) + 1) * m = (as.length : ℚ) * m + m := by ring
    push_cast
    linarith

theorem sum_le_mul_length (l : List ℚ) (m : ℚ) (h : ∀ y ∈ l, y ≤ m) :
    l.sum ≤ (l.length : ℚ) * m := by
  induction l with
  | nil => simp
  | cons a as ih =>
    simp only [List.length_cons, List.sum_cons]
    have h1 : a ≤ m := h a (List.mem_cons_self a as)
    have h2 : as.sum ≤ (as.length : ℚ) * m := ih fun y hy => h y (List.mem_cons_of_mem a hy)
    have expand : ((as.length : ℚ) + 1) * m = (as.length : ℚ) * m + m := by ring
    push_cast
    linarith

/-! ## C8: min ≤ avg ≤ max -/

/-- C8: for every host series and window whose filtered present-only
latency list is non-empty, the statistics returned by `get_statistics`
satisfy min ≤ avg ≤ max, where avg is the arithmetic mean of the
present latencies and min/max are their extrema. -/
theorem getStatistics_min_le_avg_le_max (series : List Measurement) (cutoff : ℤ)
    (mn mx av : ℚ)
    (hmn : (getStatistics series cutoff).min = some mn)
    (hmx : (getStatistics series cutoff).max = some mx)
    (hav : (getStatistics series cutoff).avg = some av) :
    mn ≤ av ∧ av ≤ mx := by
  rcases hl : presentLatencies (getRecentData series cutoff) with _ | ⟨x, xs⟩
  · simp [getStatistics, hl] at hmn
  · simp only [getStatistics, hl, List.isEmpty_cons, if_false, Bool.false_eq_true] at hmn hmx hav
    have hmn' : mn = listMin (x :: xs) := (Option.some.injEq _ _ ▸ hmn).symm
    have hmx' : mx = listMax (x :: xs) := (Option.some.injEq _ _ ▸ hmx).symm
    have hav' : av = (x :: xs).sum / (((x :: xs).length : ℕ) : ℚ) :=
      (Option.some.injEq _ _ ▸ hav).symm
    have hlenpos : (0 : ℚ) < (((x :: xs).length : ℕ) : ℚ) := by
      simp only [List.length_cons]
      push_cast
      positivity
    constructor
    · rw [hmn', hav', le_div_iff₀ hlenpos]
      have := mul_length_le_sum (x :: xs) (listMin (x :: xs))
        (fun y hy => listMin_le_mem (x :: xs) y (List.cons_ne_nil x xs) hy)
      linarith [this]
    · rw [hmx', hav', div_le_iff₀ hlenpos]
      have := sum_le_mul_length (x :: xs) (listMax (x :: xs))
        (fun y hy => mem_le_listMax (x :: xs) y (List.cons_ne_nil x xs) hy)
      linarith [this]

theorem getStatistics_min_le_avg_le_max_witness : (40 : ℚ) ≤ 50 ∧ (50 : ℚ) ≤ 60 :=
  getStatistics_min_le_avg_le_max [⟨some 40, 0⟩, ⟨some 60, 0⟩, ⟨none, 0⟩] 0 40 60 50
    (by decide) (by decide)
    (by norm_num [getStatistics, getRecentData, presentLatencies, listMin, listMax,
      calculateJitter, calculatePacketLoss, List.filter, List.filterMap])

/-! ## C10: non-empty all-absent window gives all-None statistics -/

/-- C10: for every host series and window that contains at least one
measurement but zero present latencies, `get_statistics` returns a
snapshot with every field None — in particular packet_loss is None
rather than a percentage, even though the window is non-empty. -/
theorem getStatistics_all_absent_none (series : List Measurement) (cutoff : ℤ)
    (_hne : getRecentData series cutoff ≠ [])
    (hab : presentLatencies (getRecentData series cutoff) = []) :
    getStatistics series cutoff =
      { min := none, max := none, avg := none, jitter := none, packet_loss := none } := by
  simp [getStatistics, hab]

theorem getStatistics_all_absent_none_witness :
    getStatistics [⟨none, 0⟩] 0 =
      { min := none, max := none, avg := none, jitter := none, packet_loss := none } :=
  getStatistics_all_absent_none [⟨none, 0⟩] 0 (by decide) (by decide)

/-! ## C1: packet loss -/

/-- C1 fails on the code: a window holding exactly one failed probe is
non-empty and all-absent, yet `get_statistics` returns
`packet_loss = None` — not 100, and not None-only-on-empty-window as
the claim states. -/
theorem packet_loss_spec_counterexample :
    getRecentData [⟨none, 0⟩] 0 ≠ [] ∧
    (∀ m ∈ getRecentData [⟨none, 0⟩] 0, m.latency = none) ∧
    (getStatistics [⟨none, 0⟩] 0).packet_loss = none ∧
    (getStatistics [⟨none, 0⟩] 0).packet_loss ≠ some 100 := by
  refine ⟨by decide, by decide, by decide, by decide⟩

/-- C1 (amended): the packet_loss returned by `get_statistics` is None
exactly when the window contains no *present* measurement (so also for
a non-empty all-absent window); when it is a number p, it equals
100 · absent/total over the window, with 0 ≤ p < 100 — the value 100 is
never returned, because a non-None snapshot requires at least one
present measurement. -/
theorem getStatistics_packet_loss_range (series : List Measurement) (cutoff : ℤ) :
    ((getStatistics series cutoff).packet_loss = none ↔
      presentLatencies (getRecentData series cutoff) = []) ∧
    (∀ p : ℚ, (getStatistics series cutoff).packet_loss = some p →
      0 ≤ p ∧ p < 100 ∧
      p = ((((getRecentData series cutoff).filter fun m => m.latency.isNone).length : ℚ) /
            ((getRecentData series cutoff).length : ℚ)) * 100) := by
  rcases hl : presentLatencies (getRecentData series cutoff) with _ | ⟨x, xs⟩
  · constructor
    · simp [getStatistics, hl]
    · intro p hp
      simp [getStatistics, hl] at hp
  · have hrec : getRecentData series cutoff ≠ [] := by
      intro hz
      rw [hz] at hl
      simp [presentLatencies] at hl
    have hmem : ∃ m ∈ getRecentData series cutoff, m.latency = some x := by
      have : x ∈ presentLatencies (getRecentData series cutoff) := by
        rw [hl]; exact List.mem_cons_self x xs
      simpa [presentLatencies, List.mem_filterMap] using this
    have hlen0 : 0 < (getRecentData series cutoff).length := by
      cases hgr : getRecentData series cutoff with
      | nil => exact absurd hgr hrec
      | cons a as => simp
    have hfilt : ((getRecentData series cutoff).filter fun m => m.latency.isNone).length <
        (getRecentData series cutoff).length := by
      rcases hmem with ⟨m, hm, hml⟩
      refine List.length_filter_lt_length_iff_exists.mpr ⟨m, hm, ?_⟩
      simp [hml]
    have hpl : (getStatistics series cutoff).packet_loss =
        some (((((getRecentData series cutoff).filter fun m => m.latency.isNone).length : ℚ) /
          ((getRecentData series cutoff).length : ℚ)) * 100) := by
      simp only [getStatistics, hl, List.isEmpty_cons, if_false, Bool.false_eq_true]
      simp only [calculatePacketLoss, List.isEmpty_iff, hrec, if_false, hlen0, if_true,
        if_pos hlen0]
    constructor
    · rw [hpl]
      simp [hl]
    · intro p hp
      rw [hpl] at hp
      have hp' := Option.some.inj hp
      subst hp'
      have hq0 : (0 : ℚ) ≤
          (((getRecentData series cutoff).filter fun m => m.latency.isNone).length : ℚ) /
            ((getRecentData series cutoff).length : ℚ) := by positivity
      have hq1 : (((getRecentData series cutoff).filter fun m => m.latency.isNone).length : ℚ) /
            ((getRecentData series cutoff).length : ℚ) < 1 := by
        rw [div_lt_one (by exact_mod_cast hlen0)]
        exact_mod_cast hfilt
      refine ⟨by positivity, ?_, rfl⟩
      nlinarith [hq0, hq1]

theorem getStatistics_packet_loss_range_witness :
    (0 : ℚ) ≤ 50 ∧ (50 : ℚ) < 100 ∧
    (50 : ℚ) = ((((getRecentData [⟨some 40, 0⟩, ⟨none, 0⟩] 0).filter
        fun m => m.latency.isNone).length : ℚ) /
      ((getRecentData [⟨some 40, 0⟩, ⟨none, 0⟩] 0).length : ℚ)) * 100 :=
  (getStatistics_packet_loss_range [⟨some 40, 0⟩, ⟨none, 0⟩] 0).2 50
    (by norm_num [getStatistics, getRecentData, presentLatencies, listMin, listMax,
      calculateJitter, calculatePacketLoss, List.filter, List.filterMap])

/-! ## C4: jitter -/

/-- The spec's jitter, written independently of the code: the
arithmetic mean of the absolute differences between consecutive
entries (by index) of a sequence; 0 when the sequence has fewer than
two entries. Applied to the present-only filtered latency list, this is
"mean of absolute differences between temporally consecutive present
latency values, absent measurements skipped". -/
def specJitter (l : List ℚ) : ℚ :=
  if l.length < 2 then 0
  else (∑ i ∈ Finset.range (l.length - 1), |l.getD (i + 1) 0 - l.getD i 0|) /
    (((l.length - 1 : ℕ) : ℚ))

theorem zipWith_abs_sub_sum (l : List ℚ) :
    (List.zipWith (fun prev cur => |cur - prev|) l l.tail).sum =
      ∑ i ∈ Finset.range (l.length - 1), |l.getD (i + 1) 0 - l.getD i 0| := by
  induction l with
  | nil => simp
  | cons x xs ih =>
    cases xs with
    | nil => simp
    | cons y ys =>
      have htail : (x :: y :: ys).tail = y :: ys := rfl
      have hlen : (x :: y :: ys).length - 1 = ((y :: ys).length - 1) + 1 := by
        simp only [List.length_cons]
        omega
      rw [htail, hlen, Finset.sum_range_succ']
      simp only [List.zipWith_cons_cons, List.sum_cons]
      simp only [List.tail_cons] at ih
      rw [ih]
      have hgd : ∀ i : ℕ,
          |(x :: y :: ys).getD (i + 1 + 1) 0 - (x :: y :: ys).getD (i + 1) 0| =
          |(y :: ys).getD (i + 1) 0 - (y :: ys).getD i 0| := by
        intro i
        simp [List.getD_cons_succ]
      simp only [hgd, List.getD_cons_succ, List.getD_cons_zero]
      ring

theorem calculateJitter_eq_specJitter (l : List ℚ) : calculateJitter l = specJitter l := by
  unfold calculateJitter specJitter
  by_cases h : l.length < 2
  · simp [h]
  · simp only [h, if_false]
    rw [zipWith_abs_sub_sum]
    have hlen : (List.zipWith (fun prev cur => |cur - prev|) l l.tail).length =
        l.length - 1 := by
      simp only [List.length_zipWith, List.length_tail]
      omega
    rw [hlen]

/-- C4 fails on the code as stated: a window with a single absent
measurement has fewer than 2 present samples, yet `get_statistics`
returns `jitter = None`, not 0. -/
theorem jitter_spec_counterexample :
    (presentLatencies (getRecentData [⟨none, 0⟩] 0)).length < 2 ∧
    (getStatistics [⟨none, 0⟩] 0).jitter = none ∧
    (getStatistics [⟨none, 0⟩] 0).jitter ≠ some 0 := by
  refine ⟨by decide, by decide, by decide⟩

/-- C4 (amended): whenever the window contains at least one present
sample, the jitter returned by `get_statistics` is the arithmetic mean
of the absolute differences between consecutive present latency values
in the filtered (present-only) sequence — absent measurements skipped,
nearest present neighbors compared — and 0 when there are fewer than 2
present samples but at least 1; with zero present samples jitter is
None, not 0. -/
theorem getStatistics_jitter_eq (series : List Measurement) (cutoff : ℤ) :
    ((getStatistics series cutoff).jitter = none ↔
      presentLatencies (getRecentData series cutoff) = []) ∧
    (presentLatencies (getRecentData series cutoff) ≠ [] →
      (getStatistics series cutoff).jitter =
        some (specJitter (presentLatencies (getRecentData series cutoff)))) := by
  rcases hl : presentLatencies (getRecentData series cutoff) with _ | ⟨x, xs⟩
  · constructor
    · simp [getStatistics, hl]
    · intro h
      exact absurd rfl h
  · constructor
    · simp [getStatistics, hl]
    · intro _
      simp only [getStatistics, hl, List.isEmpty_cons, if_false, Bool.false_eq_true]
      rw [calculateJitter_eq_specJitter]

theorem getStatistics_jitter_eq_witness :
    (getStatistics [⟨some 40, 0⟩, ⟨none, 0⟩, ⟨some 60, 0⟩] 0).jitter =
      some (specJitter (presentLatencies
        (getRecentData [⟨some 40, 0⟩, ⟨none, 0⟩, ⟨some 60, 0⟩] 0))) :=
  (getStatistics_jitter_eq [⟨some 40, 0⟩, ⟨none, 0⟩, ⟨some 60, 0⟩] 0).2 (by decide)

/-! ## Sparkline lemmas (C2, C9) -/

theorem sliceEveryAux_getElem (step : ℕ) (hs : 1 ≤ step) :
    ∀ (l : List ℚ) (k : ℕ), k ≤ step - 1 → ∀ i : ℕ,
      (sliceEveryAux step l k)[i]? = l[k + i * step]? := by
  intro l
  induction l with
  | nil =>
    intro k _ i
    simp [sliceEveryAux]
  | cons x xs ih =>
    intro k hk i
    cases k with
    | zero =>
      cases i with
      | zero => simp [sliceEveryAux]
      | succ i =>
        rw [sliceEveryAux]
        have hidx : 0 + (i + 1) * step = (step - 1 + i * step) + 1 := by
          rw [Nat.succ_mul]
          omega
        rw [hidx, List.getElem?_cons_succ, List.getElem?_cons_succ]
        exact ih (step - 1) (by omega) i
    | succ k =>
      rw [sliceEveryAux]
      have hidx : (k + 1) + i * step = (k + i * step) + 1 := by omega
      rw [hidx, List.getElem?_cons_succ]
      exact ih k (by omega) i

theorem sliceEvery_getElem (l : List ℚ) (step : ℕ) (hs : 1 ≤ step) (i : ℕ) :
    (sliceEvery l step)[i]? = l[i * step]? := by
  have h := sliceEveryAux_getElem step hs l 0 (by omega) i
  simpa [sliceEvery] using h

theorem sliceEvery_ne_nil (x : ℚ) (xs : List ℚ) (step : ℕ) :
    sliceEvery (x :: xs) step ≠ [] := by
  simp [sliceEvery, sliceEveryAux]

/-! ## C9: sparkline is never empty -/

/-- C9: for every host series and window, `get_sparkline_data` never
returns an empty sequence; when the window contains zero present
samples it returns exactly the single-element sequence [0.0]. -/
theorem getSparklineData_never_empty (series : List Measurement) (cutoff : ℤ) :
    getSparklineData series cutoff ≠ [] ∧
    (presentLatencies (getRecentData series cutoff) = [] →
      getSparklineData series cutoff = [0]) := by
  rcases hl : presentLatencies (getRecentData series cutoff) with _ | ⟨x, xs⟩
  · constructor
    · simp [getSparklineData, hl]
    · intro _
      simp [getSparklineData, hl]
  · constructor
    · simp only [getSparklineData, hl, List.isEmpty_cons, if_false, Bool.false_eq_true]
      by_cases hlen : 50 < (x :: xs).length
      · simp only [hlen, if_true]
        exact sliceEvery_ne_nil x xs _
      · simp only [hlen, if_false]
        exact List.cons_ne_nil x xs
    · intro h
      exact absurd h (List.cons_ne_nil x xs)

theorem getSparklineData_never_empty_witness : getSparklineData [] 0 = [0] :=
  (getSparklineData_never_empty [] 0).2 (by decide)

/-! ## C2: sparkline downsampling -/

/-- C2 fails on the code: `get_sparkline_data` takes no maxPoints
parameter — it hard-codes `max_points = 50` — and its stride is
`len // 50` (floor), so 51 present in-window samples produce 51 output
values, more than its own maxPoints of 50 (a ceil stride of 2 would
have produced 26). -/
theorem sparkline_maxpoints_counterexample :
    (presentLatencies (getRecentData (List.replicate 51 ⟨some 10, 0⟩) 0)).length = 51 ∧
    (getSparklineData (List.replicate 51 ⟨some 10, 0⟩) 0).length = 51 ∧
    50 < (getSparklineData (List.replicate 51 ⟨some 10, 0⟩) 0).length := by
  refine ⟨by decide, by decide, by decide⟩

/-- C2 (amended): `get_sparkline_data` uses a fixed maxPoints of 50.
With at most 50 present samples it returns them all; with more it
uniformly stride-downsamples with stride N = floor(count/50), keeping
the samples at indices 0, N, 2N, … — so the result can exceed 50
values, but never 99, and is never empty. -/
theorem getSparklineData_downsample (series : List Measurement) (cutoff : ℤ) :
    (presentLatencies (getRecentData series cutoff) ≠ [] →
      ((presentLatencies (getRecentData series cutoff)).length ≤ 50 →
        getSparklineData series cutoff = presentLatencies (getRecentData series cutoff)) ∧
      (50 < (presentLatencies (getRecentData series cutoff)).length →
        ∀ i : ℕ, (getSparklineData series cutoff)[i]? =
          (presentLatencies (getRecentData series cutoff))[i *
            ((presentLatencies (getRecentData series cutoff)).length / 50)]?)) ∧
    1 ≤ (getSparklineData series cutoff).length ∧
    (getSparklineData series cutoff).length ≤ 99 := by
  rcases hl : presentLatencies (getRecentData series cutoff) with _ | ⟨x, xs⟩
  · refine ⟨fun h => absurd rfl h, ?_, ?_⟩
    · simp [getSparklineData, hl]
    · simp [getSparklineData, hl]
  · by_cases hlen : 50 < (x :: xs).length
    · have hs : 1 ≤ (x :: xs).length / 50 :=
        (Nat.one_le_div_iff (by norm_num)).mpr (by omega)
      have hres : getSparklineData series cutoff =
          sliceEvery (x :: xs) ((x :: xs).length / 50) := by
        simp only [getSparklineData, hl, List.isEmpty_cons, if_false, Bool.false_eq_true,
          List.length_cons]
        rw [if_pos (by simpa using hlen)]
      have hget : ∀ i : ℕ, (getSparklineData series cutoff)[i]? =
          (x :: xs)[i * ((x :: xs).length / 50)]? := by
        intro i
        rw [hres]
        exact sliceEvery_getElem (x :: xs) _ hs i
      refine ⟨fun _ => ⟨fun hle => absurd hlen (by omega), fun _ i => hget i⟩, ?_, ?_⟩
      · have h0 : (getSparklineData series cutoff)[0]? = some x := by
          rw [hget 0]
          simp
        rcases List.getElem?_eq_some.mp h0 with ⟨hlt, _⟩
        omega
      · have hdm := Nat.div_add_mod (x :: xs).length 50
        have hmod : (x :: xs).length % 50 < 50 := Nat.mod_lt _ (by norm_num)
        have hbig : (x :: xs).length ≤ 99 * ((x :: xs).length / 50) := by omega
        have h99 : (getSparklineData series cutoff)[99]? = none := by
          rw [hget 99]
          exact List.getElem?_eq_none (by omega)
        exact List.getElem?_eq_none_iff.mp h99
    · have hres : getSparklineData series cutoff = x :: xs := by
        simp only [getSparklineData, hl, List.isEmpty_cons, if_false, Bool.false_eq_true,
          List.length_cons]
        rw [if_neg (by simpa using hlen)]
      refine ⟨fun _ => ⟨fun _ => hres, fun hgt => absurd hgt hlen⟩, ?_, ?_⟩
      · rw [hres]
        simp
      · rw [hres]
        simp only [List.length_cons] at hlen ⊢
        omega

theorem getSparklineData_downsample_witness :
    (getSparklineData (List.replicate 51 ⟨some 10, 0⟩) 0)[7]? =
      (presentLatencies (getRecentData (List.replicate 51 ⟨some 10, 0⟩) 0))[7 *
        ((presentLatencies (getRecentData (List.replicate 51 ⟨some 10, 0⟩) 0)).length / 50)]? :=
  ((getSparklineData_downsample (List.replicate 51 ⟨some 10, 0⟩) 0).1 (by decide)).2
    (by decide) 7

/-! ## Dict lemmas -/

theorem dictHasKey_eq {κ β : Type} [DecidableEq κ] (d : List (κ × β)) (k : κ) :
    dictHasKey d k = true ↔ ∃ e ∈ d, e.1 = k := by
  simp [dictHasKey]

theorem mem_keys_dictInsert {κ β : Type} [DecidableEq κ] (d : List (κ × β)) (k k' : κ)
    (v : β) :
    (∃ e ∈ dictInsert d k v, e.1 = k') ↔ (∃ e ∈ d, e.1 = k') ∨ k' = k := by
  unfold dictInsert
  by_cases h : d.any (fun e => decide (e.1 = k)) = true
  · rw [if_pos h]
    simp only [List.any_eq_true, decide_eq_true_eq] at h
    obtain ⟨e0, he0, he0k⟩ := h
    constructor
    · rintro ⟨e, he, hek'⟩
      rcases List.mem_map.mp he with ⟨a, ha, hae⟩
      by_cases hak : a.1 = k
      · right
        rw [← hek', ← hae]
        simp [hak]
      · left
        refine ⟨a, ha, ?_⟩
        rw [← hek', ← hae]
        simp [hak]
    · rintro (⟨e, he, hek'⟩ | rfl)
      · by_cases hek : e.1 = k
        · refine ⟨(k, v), List.mem_map.mpr ⟨e0, he0, by simp [he0k]⟩, ?_⟩
          rw [← hek', ← hek]
        · exact ⟨e, List.mem_map.mpr ⟨e, he, by simp [hek]⟩, hek'⟩
      · exact ⟨(k', v), List.mem_map.mpr ⟨e0, he0, by simp [he0k]⟩, rfl⟩
  · rw [if_neg h]
    constructor
    · rintro ⟨e, he, hek'⟩
      rcases List.mem_append.mp he with he | he
      · exact Or.inl ⟨e, he, hek'⟩
      · right
        simp only [List.mem_singleton] at he
        rw [← hek', he]
    · rintro (⟨e, he, hek'⟩ | rfl)
      · exact ⟨e, List.mem_append_left _ he, hek'⟩
      · exact ⟨(k', v), List.mem_append_right _ (by simp), rfl⟩

/-! ## C3: marker grid placement and clipping -/

theorem getServerGridPositions_keys_aux (wm : WorldMap) (pw ph : ℚ) (columns lines : ℤ) :
    ∀ (servers : List Server) (acc : List ((ℤ × ℤ) × String)) (cell : ℤ × ℤ),
      (∃ e ∈ servers.foldl (placeServer wm pw ph columns lines) acc, e.1 = cell) ↔
        ((∃ e ∈ acc, e.1 = cell) ∨
          ∃ s ∈ servers, serverCell wm s pw ph = cell ∧
            0 ≤ cell.2 ∧ cell.2 < columns ∧ 0 ≤ cell.1 ∧ cell.1 < lines) := by
  intro servers
  induction servers with
  | nil =>
    intro acc cell
    simp
  | cons s ss ih =>
    intro acc cell
    rw [List.foldl_cons, ih]
    by_cases hin : 0 ≤ (serverCell wm s pw ph).2 ∧ (serverCell wm s pw ph).2 < columns ∧
        0 ≤ (serverCell wm s pw ph).1 ∧ (serverCell wm s pw ph).1 < lines
    · have hplace : placeServer wm pw ph columns lines acc s =
          dictInsert acc (serverCell wm s pw ph) (s.indicator.getD "●") := by
        simp only [placeServer]
        rw [if_pos hin]
      rw [hplace, mem_keys_dictInsert]
      constructor
      · rintro ((h | h) | h)
        · exact Or.inl h
        · right
          refine ⟨s, List.mem_cons_self s ss, h.symm, ?_⟩
          rw [← h] at hin
          exact hin
        · rcases h with ⟨s', hs', hrest⟩
          exact Or.inr ⟨s', List.mem_cons_of_mem s hs', hrest⟩
      · rintro (h | ⟨s', hs', hcell, hrange⟩)
        · exact Or.inl (Or.inl h)
        · rcases List.mem_cons.mp hs' with rfl | hs'
          · exact Or.inl (Or.inr hcell.symm)
          · exact Or.inr ⟨s', hs', hcell, hrange⟩
    · have hplace : placeServer wm pw ph columns lines acc s = acc := by
        simp only [placeServer]
        rw [if_neg hin]
      rw [hplace]
      constructor
      · rintro (h | h)
        · exact Or.inl h
        · rcases h with ⟨s', hs', hrest⟩
          exact Or.inr ⟨s', List.mem_cons_of_mem s hs', hrest⟩
      · rintro (h | ⟨s', hs', hcell, hrange⟩)
        · exact Or.inl h
        · rcases List.mem_cons.mp hs' with rfl | hs'
          · rw [hcell] at hin
            exact absurd hrange hin
          · exact Or.inr ⟨s', hs', hcell, hrange⟩

/-- C3 fails on the code as stated: the code truncates toward zero
(Python `int()`), not floor. With xmin = 0, ymax = 2, unit pixels on a
2×2 canvas, a marker projected to (1/2, 5/2) lies above the top edge:
floor((ymax − y)/pixel_height) = floor(−1/2) = −1, outside the grid, so
the claim says it is dropped — but `int(−0.5) = 0`, so the code places
it in row 0 of the overlay. -/
theorem marker_floor_clip_counterexample :
    getServerGridPositions
      { transform := fun a b => (a, b), isLandCell := fun _ _ => false,
        xmin := 0, ymin := 0, xmax := 2, ymax := 2 }
      [⟨1/2, 5/2, none⟩] 1 1 2 2 = [((0, 0), "●")] ∧
    (⌊((2 : ℚ) - 5/2) / 1⌋ : ℤ) = -1 := by
  constructor
  · have hc : (⌈-(1/2 : ℚ)⌉ : ℤ) = 0 := by norm_num
    norm_num [getServerGridPositions, placeServer, serverCell, truncToZero, dictInsert,
      List.foldl, hc]
  · norm_num

/-- C3 (amended): each marker's grid cell is computed from its
projected planar (x, y) as col = int((x − xmin)/pixel_width) and
row = int((ymax − y)/pixel_height), where `int` is Python truncation
toward zero — this agrees with floor exactly when the quotient is
nonnegative. A cell appears in the overlay if and only if some marker
maps to it with (row, col) inside [0, rows) × [0, columns); markers
whose truncated cell falls outside are silently dropped. -/
theorem server_markers_truncate_and_clip (wm : WorldMap) (servers : List Server)
    (pixel_width pixel_height : ℚ) (columns lines : ℤ) :
    (∀ cell : ℤ × ℤ,
      dictHasKey (getServerGridPositions wm servers pixel_width pixel_height columns lines)
          cell = true ↔
        ∃ s ∈ servers, serverCell wm s pixel_width pixel_height = cell ∧
          0 ≤ cell.2 ∧ cell.2 < columns ∧ 0 ≤ cell.1 ∧ cell.1 < lines) ∧
    (∀ q : ℚ, 0 ≤ q → truncToZero q = ⌊q⌋) := by
  constructor
  · intro cell
    rw [dictHasKey_eq]
    unfold getServerGridPositions
    rw [getServerGridPositions_keys_aux]
    simp
  · intro q hq
    simp [truncToZero, hq]

theorem server_markers_truncate_and_clip_witness :
    truncToZero (1/2) = ⌊(1/2 : ℚ)⌋ :=
  (server_markers_truncate_and_clip sampleWorldMap [] 1 1 2 2).2 (1/2) (by norm_num)

/-! ## C5: render dimension validation -/

/-- C5: for every marker list, `WorldMap.draw` fails with the
invalid-dimensions error (the source's `ValueError`) exactly when
columns ≤ 0 or rows ≤ 0, and returns a grid whenever both are
positive. -/
theorem draw_invalid_dimensions (wm : WorldMap) (st : MapState) (columns lines : ℤ)
    (servers : List Server) :
    ((draw wm st columns lines servers =
        Except.error "Columns and lines must be greater than zero.") ↔
      (columns ≤ 0 ∨ lines ≤ 0)) ∧
    ((∃ result, draw wm st columns lines servers = Except.ok result) ↔
      (0 < columns ∧ 0 < lines)) := by
  unfold draw
  by_cases h : columns ≤ 0 ∨ lines ≤ 0
  · rw [if_pos h]
    constructor
    · exact ⟨fun _ => h, fun _ => rfl⟩
    · constructor
      · rintro ⟨r, hr⟩
        exact Except.noConfusion hr
      · intro hpos
        omega
  · rw [if_neg h]
    constructor
    · constructor
      · intro hc
        exact Except.noConfusion hc
      · intro hc
        exact absurd hc h
    · constructor
      · intro _
        omega
      · intro _
        exact ⟨_, rfl⟩

/-! ## C6: land/water grid caching -/

theorem find_in_overwritten {κ β : Type} [DecidableEq κ] (k : κ) (v : β) :
    ∀ d : List (κ × β), d.any (fun e => decide (e.1 = k)) = true →
      (d.map fun e => if e.1 = k then (k, v) else e).find? (fun e => decide (e.1 = k)) =
        some (k, v) := by
  intro d
  induction d with
  | nil =>
    intro h
    simp at h
  | cons e es ih =>
    intro h
    by_cases hek : e.1 = k
    · rw [List.map_cons, if_pos hek]
      rw [List.find?_cons_of_pos _ (by simp)]
    · rw [List.map_cons, if_neg hek]
      rw [List.find?_cons_of_neg _ (by simpa using hek)]
      apply ih
      rcases List.any_eq_true.mp h with ⟨a, ha, hpa⟩
      rcases List.mem_cons.mp ha with rfl | ha
      · exact absurd (by simpa using hpa) hek
      · exact List.any_eq_true.mpr ⟨a, ha, hpa⟩

theorem find_in_appended {κ β : Type} [DecidableEq κ] (k : κ) (v : β) :
    ∀ d : List (κ × β), d.any (fun e => decide (e.1 = k)) = false →
      (d ++ [(k, v)]).find? (fun e => decide (e.1 = k)) = some (k, v) := by
  intro d
  induction d with
  | nil => simp
  | cons e es ih =>
    intro h
    simp only [List.any_cons, Bool.or_eq_false_iff] at h
    rw [List.cons_append, List.find?_cons_of_neg _ (by simp [h.1])]
    exact ih h.2

theorem dictLookup_dictInsert_self {κ β : Type} [DecidableEq κ] (d : List (κ × β)) (k : κ)
    (v : β) : dictLookup (dictInsert d k v) k = some v := by
  unfold dictLookup dictInsert
  by_cases h : d.any (fun e => decide (e.1 = k)) = true
  · rw [if_pos h, find_in_overwritten k v d h]
    rfl
  · rw [if_neg h, find_in_appended k v d (by simp only [Bool.not_eq_true] at h; exact h)]
    rfl

theorem createLandGrid_stable (wm : WorldMap) (st : MapState) (columns lines : ℤ)
    (pw ph : ℚ) :
    dictLookup (createLandGrid wm st columns lines pw ph).2.landGridCache
        (columns, lines) = some (createLandGrid wm st columns lines pw ph).1 ∧
    createLandGrid wm (createLandGrid wm st columns lines pw ph).2 columns lines pw ph =
      createLandGrid wm st columns lines pw ph := by
  unfold createLandGrid
  cases hlk : dictLookup st.landGridCache (columns, lines) with
  | some g => simp [hlk]
  | none =>
    simp only
    constructor
    · exact dictLookup_dictInsert_self st.landGridCache (columns, lines) _
    · rw [dictLookup_dictInsert_self st.landGridCache (columns, lines) _]

/-- C6: rendering twice with the same (columns, rows) uses the same
cached land/water grid — the classification results are identical
across the two calls — and compositing markers during a render never
mutates the cached grid: the second call, with any other marker list,
returns exactly the state produced by the first, whose cache maps
(columns, rows) to that same grid. -/
theorem draw_reuses_cached_land_grid (wm : WorldMap) (st : MapState) (columns lines : ℤ)
    (servers1 servers2 : List Server) (hc : 0 < columns) (hl : 0 < lines) :
    ∃ g st1 rows1 rows2,
      createLandGrid wm st columns lines ((wm.xmax - wm.xmin) / (columns : ℚ))
          ((wm.ymax - wm.ymin) / (lines : ℚ)) = (g, st1) ∧
      draw wm st columns lines servers1 = Except.ok (rows1, st1) ∧
      draw wm st1 columns lines servers2 = Except.ok (rows2, st1) ∧
      createLandGrid wm st1 columns lines ((wm.xmax - wm.xmin) / (columns : ℚ))
          ((wm.ymax - wm.ymin) / (lines : ℚ)) = (g, st1) ∧
      dictLookup st1.landGridCache (columns, lines) = some g := by
  have hnotle : ¬(columns ≤ 0 ∨ lines ≤ 0) := by omega
  set pw := (wm.xmax - wm.xmin) / (columns : ℚ) with hpw
  set ph := (wm.ymax - wm.ymin) / (lines : ℚ) with hph
  obtain ⟨hlk, hidem⟩ := createLandGrid_stable wm st columns lines pw ph
  have hdraw : ∀ (st' : MapState) (servers : List Server),
      draw wm st' columns lines servers =
        Except.ok (((List.range lines.toNat).map fun line =>
            renderMapRow line columns.toNat
              (createLandGrid wm st' columns lines pw ph).1
              (if servers.isEmpty then []
               else getServerGridPositions wm servers pw ph columns lines)
              [("🟢", "green"), ("🟡", "yellow"), ("🔴", "red")]),
          (createLandGrid wm st' columns lines pw ph).2) := by
    intro st' servers
    unfold draw
    rw [if_neg hnotle]
  have h2 := hdraw (createLandGrid wm st columns lines pw ph).2 servers2
  rw [hidem] at h2
  refine ⟨(createLandGrid wm st columns lines pw ph).1,
    (createLandGrid wm st columns lines pw ph).2, _, _, rfl, hdraw st servers1, h2, ?_, hlk⟩
  exact hidem

theorem draw_reuses_cached_land_grid_witness :
    ∃ g st1 rows1 rows2,
      createLandGrid sampleWorldMap ⟨[]⟩ 1 1
          ((sampleWorldMap.xmax - sampleWorldMap.xmin) / ((1 : ℤ) : ℚ))
          ((sampleWorldMap.ymax - sampleWorldMap.ymin) / ((1 : ℤ) : ℚ)) = (g, st1) ∧
      draw sampleWorldMap ⟨[]⟩ 1 1 [] = Except.ok (rows1, st1) ∧
      draw sampleWorldMap st1 1 1 [⟨1, 1, some "🟢"⟩] = Except.ok (rows2, st1) ∧
      createLandGrid sampleWorldMap st1 1 1
          ((sampleWorldMap.xmax - sampleWorldMap.xmin) / ((1 : ℤ) : ℚ))
          ((sampleWorldMap.ymax - sampleWorldMap.ymin) / ((1 : ℤ) : ℚ)) = (g, st1) ∧
      dictLookup st1.landGridCache (1, 1) = some g :=
  draw_reuses_cached_land_grid sampleWorldMap ⟨[]⟩ 1 1 [] [⟨1, 1, some "🟢"⟩]
    (by decide) (by decide)

/-! ## C7: duplicate host rejection -/

/-- C7: an add-host request whose name or IP address equals that of an
existing entry — and which passes the preceding field and coordinate
validation — is rejected with the duplicate-host error notification,
and on this failure no state is mutated: `runtime_servers` and the
latency history are returned unchanged. -/
theorem addNewServer_duplicate_rejected (parseFloat : String → Option ℚ)
    (st : AppState) (fd : FormData) (lat lon : ℚ)
    (hname : fd.name ≠ "") (hip : fd.ip ≠ "")
    (hlats : fd.latitude_str ≠ "") (hlons : fd.longitude_str ≠ "")
    (hplat : parseFloat fd.latitude_str = some lat)
    (hplon : parseFloat fd.longitude_str = some lon)
    (hlatr : -90 ≤ lat ∧ lat ≤ 90) (hlonr : -180 ≤ lon ∧ lon ≤ 180)
    (hdup : ∃ s ∈ st.runtime_servers, s.ip = fd.ip ∨ s.name = fd.name) :
    (addNewServer parseFloat st fd).2 = st ∧
    ((addNewServer parseFloat st fd).1 =
        AddServerResult.notified ("Server with IP " ++ fd.ip ++ " already exists") ∨
      (addNewServer parseFloat st fd).1 =
        AddServerResult.notified ("Server with name " ++ fd.name ++ " already exists")) := by
  have hfields : ¬(fd.name = "" ∨ fd.ip = "" ∨ fd.latitude_str = "" ∨
      fd.longitude_str = "") := by
    push_neg
    exact ⟨hname, hip, hlats, hlons⟩
  unfold addNewServer
  rw [if_neg hfields, hplat, hplon]
  dsimp only
  rw [if_neg (not_not_intro hlatr), if_neg (not_not_intro hlonr)]
  by_cases hipdup : st.runtime_servers.any (fun s => decide (s.ip = fd.ip)) = true
  · rw [if_pos hipdup]
    exact ⟨rfl, Or.inl rfl⟩
  · rw [if_neg hipdup]
    have hnamedup : st.runtime_servers.any (fun s => decide (s.name = fd.name)) = true := by
      rcases hdup with ⟨s, hs, hdip | hdname⟩
      · exact absurd (List.any_eq_true.mpr ⟨s, hs, by simp [hdip]⟩) hipdup
      · exact List.any_eq_true.mpr ⟨s, hs, by simp [hdname]⟩
    rw [if_pos hnamedup]
    exact ⟨rfl, Or.inr rfl⟩

theorem addNewServer_duplicate_rejected_witness :
    (addNewServer (fun s => if s = "1" then some 1 else none)
        ⟨[⟨"alpha", "10.0.0.1", 0, 0, "c"⟩], []⟩
        ⟨"beta", "10.0.0.1", "1", "1", ""⟩).2 =
      ⟨[⟨"alpha", "10.0.0.1", 0, 0, "c"⟩], []⟩ ∧
    ((addNewServer (fun s => if s = "1" then some 1 else none)
        ⟨[⟨"alpha", "10.0.0.1", 0, 0, "c"⟩], []⟩
        ⟨"beta", "10.0.0.1", "1", "1", ""⟩).1 =
      AddServerResult.notified ("Server with IP " ++ "10.0.0.1" ++ " already exists") ∨
    (addNewServer (fun s => if s = "1" then some 1 else none)
        ⟨[⟨"alpha", "10.0.0.1", 0, 0, "c"⟩], []⟩
        ⟨"beta", "10.0.0.1", "1", "1", ""⟩).1 =
      AddServerResult.notified ("Server with name " ++ "beta" ++ " already exists")) :=
  addNewServer_duplicate_rejected (fun s => if s = "1" then some 1 else none)
    ⟨[⟨"alpha", "10.0.0.1", 0, 0, "c"⟩], []⟩ ⟨"beta", "10.0.0.1", "1", "1", ""⟩ 1 1
    (by decide) (by decide) (by decide) (by decide) (by simp) (by simp)
    (by norm_num) (by norm_num)
    ⟨⟨"alpha", "10.0.0.1", 0, 0, "c"⟩, by simp, Or.inl rfl⟩

end LagLens
